import Mathlib

/-!
Verification of the MarkMind Relevance & Linking Engine.

This file gives a shallow embedding of the engine implemented in
`src/shared/concept-linker.ts` (vocabulary/concept indexing, TF-IDF,
cosine similarity, concept-graph similarity, tiered fallback linking,
temporal decay) and of the full-text relevance scorer in
`src/shared/storage.ts`, together with the external-collaborator
surface of `aiService.linkConcepts` from `src/shared/page-analyzer.ts`.

Modelling conventions:
* JavaScript strings are `List Char`; `toLowerCase` is `List.map Char.toLower`
  (Lean's `Char.toLower` performs the same ASCII A-Z mapping).
* JavaScript numbers are idealized: timestamps and relevance scores are
  exact rationals `ℚ`; similarity scores, which involve `Math.sqrt` and
  `Math.log`, are real numbers `ℝ` with `Real.sqrt` / `Real.log`.
  Division by zero yields the junk value `0` (JS would yield `NaN` or
  `Infinity`; the spots where this matters are noted at the definitions).
* A JS `Set` built from a list is modelled by `List.dedup`; the element
  order differs from JS insertion order, but membership and size agree,
  and no modelled computation depends on set element order (set iteration
  feeds only commutative sums and human-readable reason strings).
* A JS `Map` is an association list with unique keys; `Map.get` is `jsGet`.
* The asynchronous storage and AI collaborators are modelled as pure
  values: the highlight store is a `List Highlight`, and the outcome of
  the external AI transport is an explicit `AIResponseOutcome` parameter.
-/

namespace MarkMind

/-- JavaScript strings, modelled as character lists. -/
abbrev Str := List Char

/-- `Map.get` on an association list (first matching key, like a JS `Map`
whose keys are unique). -/
def jsGet {β : Type} (g : List (Str × β)) (k : Str) : Option β :=
  (g.find? (fun p => decide (p.1 = k))).map Prod.snd

/-- `Map.get(k) ?? d`. -/
def jsGetD {β : Type} (g : List (Str × β)) (k : Str) (d : β) : β :=
  (jsGet g k).getD d

/-- One splitting round of `String.prototype.split(/\s+/)`, with a fuel
argument so that the recursion is structural (each round consumes at
least one character, so any fuel above the string length is enough):
take the stretch up to the next whitespace run as a token, drop that
run, repeat. -/
def splitWSFuel : ℕ → Str → List Str
  | 0, _ => []
  | n + 1, l =>
    let tok := l.takeWhile (fun c => !c.isWhitespace)
    let rest := l.dropWhile (fun c => !c.isWhitespace)
    if rest = [] then [tok]
    else tok :: splitWSFuel n (rest.dropWhile Char.isWhitespace)

/-- `String.prototype.split(/\s+/)`: tokens are the (possibly empty)
stretches between maximal nonempty whitespace runs, so a leading or
trailing whitespace run produces an empty token, and splitting the empty
string yields `[[]]`. `l.length + 1` fuel always suffices
(`splitWS_eq` below recovers the fuel-free recurrence). -/
def splitWS (l : Str) : List Str := splitWSFuel (l.length + 1) l

/-- `String.prototype.toLowerCase()` on the modelled string. -/
def toLowerStr (l : Str) : Str := l.map Char.toLower

/-- A character matching the JS regex class `\w` (`[A-Za-z0-9_]`). -/
def isWordChar (c : Char) : Bool := c.isAlpha || c.isDigit || c = '_'

/-- `text.replace(/[^\w\s]/g, ' ')`: every character that is neither a
word character nor whitespace becomes a space. -/
def stripPunct (l : Str) : Str :=
  l.map (fun c => if isWordChar c || c.isWhitespace then c else ' ')

/-- The stop-word set of `extractWords` (`concept-linker.ts`, lines 504-511). -/
def stopWords : List Str :=
  [ "the", "a", "an", "and", "or", "but", "in", "on", "at", "to", "for",
    "of", "with", "by", "from", "as", "is", "was", "are", "were", "been",
    "be", "have", "has", "had", "do", "does", "did", "will", "would",
    "could", "should", "may", "might", "must", "can", "this", "that",
    "these", "those", "i", "you", "he", "she", "it", "we", "they",
    "what", "which", "who", "when", "where", "why", "how" ].map String.toList

/-- The suffix list of `simpleStem`, in source order (`concept-linker.ts`,
line 529). -/
def suffixList : List Str :=
  ["ing", "ed", "es", "s", "ly", "er", "est", "tion", "ation"].map String.toList

/-- The loop body of `simpleStem`: return on the first suffix in the list
that matches with a remaining stem of length `> 2`. -/
def stripFirst (word : Str) : List Str → Str
  | [] => word
  | suf :: rest =>
      if suf <:+ word ∧ suf.length + 2 < word.length then
        word.take (word.length - suf.length)
      else stripFirst word rest

/-- `simpleStem` (`concept-linker.ts`, lines 528-538): strips the first
matching suffix from `suffixList` whose removal leaves more than two
characters; returns the word unchanged otherwise. -/
def simpleStem (word : Str) : Str := stripFirst word suffixList

/-- `extractWords` (`concept-linker.ts`, lines 503-523): lowercase,
replace punctuation by spaces, split on whitespace, keep tokens longer
than 2 characters that are not stop words and not purely numeric, then
stem each. -/
def extractWords (text : Str) : List Str :=
  (((splitWS (stripPunct (toLowerStr text))).filter
      (fun w => decide (2 < w.length) && !(stopWords.contains w)
        && !(w.all Char.isDigit && !w.isEmpty))).map simpleStem)

/-- `longestSuffixStem`, modelled from the spec's words ("strip the
longest matching suffix among `ing, ed, es, s, ly, er, est, tion, ation`
provided the remaining stem length exceeds 2"); used only to compare the
spec's description against `simpleStem`. -/
def longestSuffixStem (word : Str) : Str :=
  let matching := suffixList.filter (fun suf =>
    decide (suf <:+ word ∧ suf.length + 2 < word.length))
  match matching.foldl (fun acc s =>
      match acc with
      | none => some s
      | some b => if b.length < s.length then some s else some b) none with
  | some suf => word.take (word.length - suf.length)
  | none => word

/-- Concept categories (`types/index.ts`, `ConceptCategory`). -/
inductive ConceptCategory where
  | person | organization | technology | theory | method
  | location | event | unknown
  deriving DecidableEq, Repr

/-- `Object.values(ConceptCategory)` in declaration order. -/
def categoriesList : List ConceptCategory :=
  [.person, .organization, .technology, .theory, .method,
   .location, .event, .unknown]

/-- The fixed per-category weights of `calculateCategorySimilarity`
(`concept-linker.ts`, lines 285-294). -/
def categoryWeight : ConceptCategory → ℝ
  | .technology => 1.0
  | .theory => 0.9
  | .method => 0.8
  | .person => 0.6
  | .organization => 0.5
  | .location => 0.3
  | .event => 0.7
  | .unknown => 0.4

/-- Highlight colors (`types/index.ts`, `HighlightColor`). -/
inductive HighlightColor where
  | yellow | green | blue | pink | purple | orange
  deriving DecidableEq, Repr

/-- An extracted concept (`types/index.ts`, `ExtractedConcept`). -/
structure ExtractedConcept where
  name : Str
  confidence : ℚ
  category : ConceptCategory
  relatedConcepts : List Str
  deriving DecidableEq, Repr

/-- A highlight (`types/index.ts`, `Highlight`); fields the engine never
reads (url, position, sentiment, readingLevel, aiSummary, questions,
keyPhrases, updatedAt, lastReviewedAt) are omitted. Timestamps are
milliseconds as exact rationals. -/
structure Highlight where
  id : Str
  pageTitle : Str
  text : Str
  note : Str
  color : HighlightColor
  createdAt : ℚ
  collectionIds : List Str
  tags : List Str
  concepts : List ExtractedConcept
  relatedHighlightIds : List Str
  topics : List Str
  referenceCount : ℕ
  deriving DecidableEq, Repr

/-- Search filters (`storage.ts`, `SearchFilters`): all fields optional. -/
structure SearchFilters where
  collections : Option (List Str) := none
  tags : Option (List Str) := none
  colors : Option (List HighlightColor) := none
  dateRange : Option (ℚ × ℚ) := none
  topics : Option (List Str) := none

/-- One per-term summand of `calculateRelevanceScore` (`storage.ts`,
lines 271-290). -/
def termScore (h : Highlight) (text note title : Str) (term : Str) : ℚ :=
  (if term <:+: text then 3 else 0)
  + (if term <:+: note then 2 else 0)
  + (if term <:+: title then 1 else 0)
  + (if h.concepts.any (fun c => decide (term <:+: toLowerStr c.name)) then 4 else 0)
  + (if h.topics.any (fun t => decide (term <:+: toLowerStr t)) then 3 else 0)
  + (if h.tags.any (fun t => decide (term <:+: toLowerStr t)) then 2 else 0)

/-- `calculateRelevanceScore` (`storage.ts`, lines 254-301). `now` is the
`Date.now()` timestamp in milliseconds. -/
def calculateRelevanceScore (h : Highlight) (searchTerms : List Str) (now : ℚ) : ℚ :=
  let text := toLowerStr h.text
  let note := toLowerStr h.note
  let title := toLowerStr h.pageTitle
  let fullQuery := List.intercalate [' '] searchTerms
  let phrase := (if fullQuery <:+: text then 10 else 0)
    + (if fullQuery <:+: note then 8 else 0)
    + (if fullQuery <:+: title then 5 else 0)
  let terms := (searchTerms.map (termScore h text note title)).sum
  let daysSinceCreation := (now - h.createdAt) / 86400000
  let recency := (if daysSinceCreation < 7 then 1 else 0)
    + (if daysSinceCreation < 1 then 2 else 0)
  phrase + terms + recency + (h.referenceCount : ℚ) * 0.5

/-- The post-scoring filter chain of `searchHighlights` (`storage.ts`,
lines 212-245). -/
def applySearchFilters (f : SearchFilters) (l : List Highlight) : List Highlight :=
  let l1 := match f.collections with
    | some cs => if cs.isEmpty then l else
        l.filter (fun h => h.collectionIds.any (fun i => cs.contains i))
    | none => l
  let l2 := match f.tags with
    | some ts => if ts.isEmpty then l1 else
        l1.filter (fun h => h.tags.any (fun t => ts.contains t))
    | none => l1
  let l3 := match f.colors with
    | some cols => if cols.isEmpty then l2 else
        l2.filter (fun h => cols.contains h.color)
    | none => l2
  let l4 := match f.dateRange with
    | some r => l3.filter (fun h => decide (r.1 ≤ h.createdAt ∧ h.createdAt ≤ r.2))
    | none => l3
  match f.topics with
  | some ts => if ts.isEmpty then l4 else
      l4.filter (fun h => h.topics.any (fun t => ts.contains t))
  | none => l4

/-- `searchHighlights` (`storage.ts`, lines 193-252): score every
highlight, drop scores of 0 (or below), sort by score descending
(stable), project the highlights, then apply the optional filters. -/
def searchHighlights (store : List Highlight) (query : Str)
    (filters : Option SearchFilters) (now : ℚ) : List Highlight :=
  let searchTerms := splitWS (toLowerStr query)
  let scored := store.map (fun h => (h, calculateRelevanceScore h searchTerms now))
  let kept := scored.filter (fun p => decide (0 < p.2))
  let ranked := (kept.mergeSort (fun a b => decide (b.2 ≤ a.2))).map Prod.fst
  match filters with
  | none => ranked
  | some f => applySearchFilters f ranked

/-- The concept co-occurrence graph (`conceptGraph : Map<string, Set<string>>`). -/
abbrev Graph := List (Str × List Str)

/-- `if (!map.has(k)) map.set(k, new Set())`. -/
def graphEnsureKey (g : Graph) (k : Str) : Graph :=
  if (jsGet g k).isSome then g else g ++ [(k, [])]

/-- `map.get(k)!.add(v)` (no-op when `k` is absent, which the callers
prevent by `graphEnsureKey`). -/
def graphAddNeighbor (g : Graph) (k v : Str) : Graph :=
  g.map (fun p => if p.1 = k then (p.1, if v ∈ p.2 then p.2 else p.2 ++ [v]) else p)

/-- Inner loop of the concept-graph build (`concept-linker.ts`, lines
63-74): register `c.name` and link it to every other concept name of the
same highlight. Names are used verbatim, with their original case. -/
def graphAddConcept (h : Highlight) (g : Graph) (c : ExtractedConcept) : Graph :=
  h.concepts.foldl
    (fun g2 oc => if c.name ≠ oc.name then graphAddNeighbor g2 c.name oc.name else g2)
    (graphEnsureKey g c.name)

/-- Per-highlight step of the concept-graph build (`concept-linker.ts`,
lines 60-75). -/
def graphAddHighlight (g : Graph) (h : Highlight) : Graph :=
  if h.concepts.length = 0 then g else h.concepts.foldl (graphAddConcept h) g

/-- The concept-graph part of `rebuildIndexes` (`concept-linker.ts`,
lines 59-75). -/
def rebuildConceptGraph (hs : List Highlight) : Graph :=
  hs.foldl graphAddHighlight []

/-- The vocabulary-index part of `rebuildIndexes` (`concept-linker.ts`,
lines 47-57): term -> highlight ids. Built but never queried by the
linking path; included for completeness. -/
def rebuildVocabularyIndex (hs : List Highlight) : List (Str × List Str) :=
  hs.foldl
    (fun idx h => (extractWords h.text).foldl
      (fun idx2 w =>
        match jsGet idx2 w with
        | some _ =>
            idx2.map (fun p => if p.1 = w then
              (p.1, if h.id ∈ p.2 then p.2 else p.2 ++ [h.id]) else p)
        | none => idx2 ++ [(w, [h.id])])
      idx)
    []

/-- Score of one (source concept, target concept) pair in
`calculateGraphSimilarity`: 1 for a direct edge, 0.5 for a two-hop
connection, 0 otherwise. A missing graph node has no edges. -/
def pairScore (g : Graph) (s t : Str) : ℝ :=
  let adjS := (jsGet g s).getD []
  if t ∈ adjS then 1
  else if adjS.any (fun i => decide (t ∈ (jsGet g i).getD [])) then 0.5
  else 0

/-- `calculateGraphSimilarity` (`concept-linker.ts`, lines 245-276). -/
noncomputable def calculateGraphSimilarity (g : Graph) (src tgt : List Str) : ℝ :=
  let connections := (src.map (fun s => (tgt.map (pairScore g s)).sum)).sum
  let totalPaths := src.length * tgt.length
  if 0 < totalPaths then connections / (totalPaths : ℝ) else 0

/-- `groupConceptsByCategory` (`concept-linker.ts`, lines 550-563) read
through `map.get(cat) || new Set()`: the set of lower-cased names of the
concepts in a given category. -/
def groupConceptsByCategory (concepts : List ExtractedConcept)
    (cat : ConceptCategory) : List Str :=
  ((concepts.filter (fun c => decide (c.category = cat))).map
    (fun c => toLowerStr c.name)).dedup

/-- One iteration of the category loop in `calculateCategorySimilarity`:
the accumulator carries `(weightedSimilarity, totalWeight)`. In JS an
empty set on exactly one side makes the overlap ratio `0 / 0 = NaN`; the
model's junk value there is `0`. -/
noncomputable def categoryStep (srcBy tgtBy : ConceptCategory → List Str)
    (acc : ℝ × ℝ) (cat : ConceptCategory) : ℝ × ℝ :=
  let s := srcBy cat
  let t := tgtBy cat
  if s.length = 0 ∧ t.length = 0 then acc
  else
    let overlap := s.filter (fun x => decide (x ∈ t))
    let sim := (overlap.length : ℝ) / Real.sqrt ((s.length : ℝ) * (t.length : ℝ))
    (acc.1 + sim * categoryWeight cat, acc.2 + categoryWeight cat)

/-- `calculateCategorySimilarity` (`concept-linker.ts`, lines 281-315). -/
noncomputable def calculateCategorySimilarity
    (srcBy tgtBy : ConceptCategory → List Str) : ℝ :=
  let r := categoriesList.foldl (categoryStep srcBy tgtBy) (0, 0)
  if 0 < r.2 then r.1 / r.2 else 0

/-- `calculateIDF` (`concept-linker.ts`, lines 366-385): for every term
occurring in the corpus, `ln(totalDocuments / documentFrequency)`. -/
noncomputable def calculateIDF (hs : List Highlight) : List (Str × ℝ) :=
  let n := hs.length
  let allTerms := (hs.flatMap (fun h => (extractWords h.text).dedup)).dedup
  allTerms.map (fun t =>
    (t, Real.log ((n : ℝ) /
      ((hs.filter (fun h => decide (t ∈ extractWords h.text))).length : ℝ))))

/-- `calculateTFIDFVector` (`concept-linker.ts`, lines 390-407): raw term
count times the corpus IDF (terms absent from the IDF map weigh 0). -/
noncomputable def calculateTFIDFVector (text : Str) (idfValues : List (Str × ℝ)) :
    List (Str × ℝ) :=
  let words := extractWords text
  words.dedup.map (fun t => (t, (words.count t : ℝ) * jsGetD idfValues t 0))

/-- `cosineSimilarity` (`concept-linker.ts`, lines 412-438): dot product
over A's entries against B's map, magnitudes from each map's own entries,
0 if either magnitude is 0. -/
noncomputable def cosineSimilarity (vecA vecB : List (Str × ℝ)) : ℝ :=
  let dotProduct := (vecA.map (fun p => p.2 * jsGetD vecB p.1 0)).sum
  let magnitudeA := Real.sqrt ((vecA.map (fun p => p.2 * p.2)).sum)
  let magnitudeB := Real.sqrt ((vecB.map (fun p => p.2 * p.2)).sum)
  if magnitudeA = 0 ∨ magnitudeB = 0 then 0
  else dotProduct / (magnitudeA * magnitudeB)

/-- `getTopSharedTerms` (`concept-linker.ts`, lines 443-464): terms
present in both vectors with a truthy (nonzero) B-score, ranked by the
minimum of the two scores, descending. -/
noncomputable def getTopSharedTerms (vecA vecB : List (Str × ℝ)) (count : ℕ) :
    List Str :=
  let shared := vecA.filterMap (fun p =>
    match jsGet vecB p.1 with
    | some sB => if sB ≠ 0 then some (p.1, min p.2 sB) else none
    | none => none)
  ((shared.mergeSort (fun a b => decide (b.2 ≤ a.2))).take count).map Prod.fst

/-- Match types of a related-highlight entry. -/
inductive MatchType where
  | ai_semantic | concept_based | text_similarity
  deriving DecidableEq, Repr

/-- A `RelatedHighlight` result entry (`concept-linker.ts`, lines 650-656). -/
structure RelatedHighlight where
  highlight : Highlight
  similarity : ℝ
  matchType : MatchType
  sharedConcepts : List Str
  reason : Str

/-- Options of `findRelatedHighlights` with their source defaults
(`concept-linker.ts`, lines 88-93). -/
structure LinkingOptions where
  maxResults : ℕ := 5
  minSimilarity : ℝ := 0.3
  useAI : Bool := false
  excludeIds : List Str := []

/-- `generateConceptMatchReason` (`concept-linker.ts`, lines 493-498). -/
def generateConceptMatchReason (concepts : List Str) (count : ℕ) : Str :=
  if count = 0 then "Related content".toList
  else if count = 1 then "Shares concept: ".toList ++ concepts.headD []
  else if count = 2 then
    "Shares concepts: ".toList ++ concepts.headD [] ++ " and ".toList
      ++ (concepts.drop 1).headD []
  else
    "Shares ".toList ++ (toString count).toList ++ " concepts including ".toList
      ++ List.intercalate ", ".toList (concepts.take 2)

/-- Outcome of the external AI transport behind `linkConceptsWithAI`
(`page-analyzer.ts`, lines 586-632): a parsed id array, a parseable but
non-array response, or any thrown error (network failure, timeout,
unparseable JSON). This is the collaborator boundary of the model. -/
inductive AIResponseOutcome where
  | ids (l : List Str)
  | malformed
  | failure

/-- The observable state of `aiService` for linking: `isAvailable()`,
whether the provider is a non-Local one, and the transport outcome. -/
structure AIState where
  available : Bool
  nonLocalProvider : Bool
  response : AIResponseOutcome

/-- `ConceptLinkingRequest` (`types/index.ts`). -/
structure ConceptLinkingRequest where
  sourceHighlightId : Str
  allHighlights : List Highlight
  maxLinks : Option ℕ := none
  minSimilarity : Option ℝ := none

/-- `jaccardSimilarity` (`page-analyzer.ts`, lines 688-695). -/
noncomputable def jaccardSimilarity (a b : List Str) : ℝ :=
  if a.length = 0 ∧ b.length = 0 then 0
  else ((a.filter (fun x => decide (x ∈ b))).length : ℝ)
    / (((a ++ b).dedup.length : ℝ))

/-- Words of length > 4 used by the local Jaccard linker (note: plain
whitespace split, no punctuation stripping or stemming). -/
def longWords (text : Str) : List Str :=
  ((splitWS (toLowerStr text)).filter (fun w => decide (4 < w.length))).dedup

/-- `linkConceptsLocally` (`page-analyzer.ts`, lines 637-683):
multi-dimensional Jaccard similarity, thresholded, sorted descending,
truncated, projected to ids. -/
noncomputable def linkConceptsLocally (source : Highlight)
    (allHighlights : List Highlight) (maxLinks : ℕ) (minSimilarity : ℝ) :
    List Str :=
  let sC := (source.concepts.map (fun c => toLowerStr c.name)).dedup
  let sT := (source.topics.map toLowerStr).dedup
  let sG := (source.tags.map toLowerStr).dedup
  let sW := longWords source.text
  let sims := ((allHighlights.filter (fun h => decide (h.id ≠ source.id))).map
    (fun h =>
      let tC := (h.concepts.map (fun c => toLowerStr c.name)).dedup
      let tT := (h.topics.map toLowerStr).dedup
      let tG := (h.tags.map toLowerStr).dedup
      let tW := longWords h.text
      (h.id, jaccardSimilarity sC tC * 0.4 + jaccardSimilarity sT tT * 0.3
        + jaccardSimilarity sG tG * 0.15 + jaccardSimilarity sW tW * 0.15)))
  (((sims.filter (fun p => decide (minSimilarity ≤ p.2))).mergeSort
      (fun a b => decide (b.2 ≤ a.2))).take maxLinks).map Prod.fst

/-- `linkConceptsWithAI` (`page-analyzer.ts`, lines 586-632): a parsed
array is truncated to `maxLinks`; a non-array response yields `[]`; any
thrown error falls back to `linkConceptsLocally` with threshold 0.3. -/
noncomputable def linkConceptsWithAI (source : Highlight)
    (allHighlights : List Highlight) (maxLinks : ℕ) (ai : AIState) : List Str :=
  match ai.response with
  | .ids l => l.take maxLinks
  | .malformed => []
  | .failure => linkConceptsLocally source allHighlights maxLinks 0.3

/-- `aiService.linkConcepts` (`page-analyzer.ts`, lines 570-581): returns
`[]` when the source id is not among the supplied highlights; otherwise
dispatches to the AI or the local linker. -/
noncomputable def linkConcepts (req : ConceptLinkingRequest) (ai : AIState) :
    List Str :=
  match req.allHighlights.find? (fun h => decide (h.id = req.sourceHighlightId)) with
  | none => []
  | some source =>
      if ai.available && ai.nonLocalProvider then
        linkConceptsWithAI source req.allHighlights (req.maxLinks.getD 5) ai
      else
        linkConceptsLocally source req.allHighlights (req.maxLinks.getD 5)
          (req.minSimilarity.getD 0.3)

/-- The candidate set common to all three tiers: every stored highlight
except the source and the explicitly excluded ids. -/
def candidatesOf (source : Highlight) (store : List Highlight)
    (excludeIds : List Str) : List Highlight :=
  store.filter (fun h => decide (h.id ≠ source.id ∧ h.id ∉ excludeIds))

/-- `findRelatedWithAI` (`concept-linker.ts`, lines 147-175): ask the AI
service for ranked ids over the candidate set, then build entries with
synthetic descending scores `0.9 - 0.1 * rank`, dropping unknown ids.
Nothing in the modelled body can throw, so the surrounding `catch`
(which would return `[]`) has no arm here. -/
noncomputable def findRelatedWithAI (source : Highlight) (store : List Highlight)
    (maxResults : ℕ) (excludeIds : List Str) (ai : AIState) :
    List RelatedHighlight :=
  let candidates := candidatesOf source store excludeIds
  let relatedIds := linkConcepts
    { sourceHighlightId := source.id, allHighlights := candidates,
      maxLinks := some maxResults } ai
  relatedIds.enum.filterMap (fun p =>
    match candidates.find? (fun h => decide (h.id = p.2)) with
    | some h => some ⟨h, 0.9 - (p.1 : ℝ) * 0.1, .ai_semantic, [],
        "AI identified semantic relationship".toList⟩
    | none => none)

/-- `findRelatedByConcepts` (`concept-linker.ts`, lines 180-240). -/
noncomputable def findRelatedByConcepts (source : Highlight)
    (store : List Highlight) (minSimilarity : ℝ) (excludeIds : List Str)
    (graph : Graph) : List RelatedHighlight :=
  let candidates := candidatesOf source store excludeIds
  let sourceConcepts := (source.concepts.map (fun c => toLowerStr c.name)).dedup
  candidates.filterMap (fun cand =>
    if cand.concepts.length = 0 then none
    else
      let candConcepts := (cand.concepts.map (fun c => toLowerStr c.name)).dedup
      let directOverlap := sourceConcepts.filter (fun x => decide (x ∈ candConcepts))
      let directSimilarity := (directOverlap.length : ℝ)
        / Real.sqrt ((sourceConcepts.length : ℝ) * (candConcepts.length : ℝ))
      let graphSimilarity := calculateGraphSimilarity graph sourceConcepts candConcepts
      let categorySimilarity := calculateCategorySimilarity
        (groupConceptsByCategory source.concepts) (groupConceptsByCategory cand.concepts)
      let totalSimilarity := directSimilarity * 0.5 + graphSimilarity * 0.3
        + categorySimilarity * 0.2
      if minSimilarity ≤ totalSimilarity then
        some ⟨cand, totalSimilarity, .concept_based, directOverlap,
          generateConceptMatchReason directOverlap directOverlap.length⟩
      else none)

/-- `findRelatedByTFIDF` (`concept-linker.ts`, lines 320-361). -/
noncomputable def findRelatedByTFIDF (source : Highlight) (store : List Highlight)
    (minSimilarity : ℝ) (excludeIds : List Str) : List RelatedHighlight :=
  let candidates := candidatesOf source store excludeIds
  let idfValues := calculateIDF store
  let sourceTFIDF := calculateTFIDFVector source.text idfValues
  candidates.filterMap (fun cand =>
    let candTFIDF := calculateTFIDFVector cand.text idfValues
    let similarity := cosineSimilarity sourceTFIDF candTFIDF
    if minSimilarity ≤ similarity then
      let sharedTerms := getTopSharedTerms sourceTFIDF candTFIDF 3
      some ⟨cand, similarity, .text_similarity, sharedTerms,
        "Shared themes: ".toList ++ List.intercalate ", ".toList sharedTerms⟩
    else none)

/-- `applyTemporalDecay` (`concept-linker.ts`, lines 469-488), verbatim:
the boost condition compares the *age* `now - createdAt` against the
*timestamp* `thirtyDaysAgo = now - 30 days`, and the recency ratio
divides by that timestamp. -/
noncomputable def applyTemporalDecay (now : ℚ) (related : List RelatedHighlight) :
    List RelatedHighlight :=
  let thirtyDaysAgo : ℚ := now - 30 * 24 * 60 * 60 * 1000
  related.map (fun item =>
    let age := now - item.highlight.createdAt
    let temporalBoost : ℚ := if age < thirtyDaysAgo
      then (1 - age / thirtyDaysAgo) * 0.1 else 0
    { item with similarity := min 1 (item.similarity + (temporalBoost : ℝ)) })

open Classical in
/-- The tier-selection part of `findRelatedHighlights`
(`concept-linker.ts`, lines 105-134): the AI tier if requested and
available, else (or on an empty AI result) the concept tier when the
source has concepts, else (or on an empty concept result) the TF-IDF
tier. -/
noncomputable def tierResults (source : Highlight) (store : List Highlight)
    (opts : LinkingOptions) (ai : AIState) (graph : Graph) :
    List RelatedHighlight :=
  let r1 := if opts.useAI && ai.available then
      findRelatedWithAI source store opts.maxResults opts.excludeIds ai
    else []
  let r2 := if r1 = [] ∧ 0 < source.concepts.length then
      findRelatedByConcepts source store opts.minSimilarity opts.excludeIds graph
    else r1
  if r2 = [] then
    findRelatedByTFIDF source store opts.minSimilarity opts.excludeIds
  else r2

/-- The ranked, truncated pipeline of `findRelatedHighlights` after the
source highlight has been fetched (`concept-linker.ts`, lines 105-141):
strategy tiers, temporal decay, stable sort by similarity descending,
truncation to `maxResults`. -/
noncomputable def findRelatedCore (source : Highlight) (store : List Highlight)
    (opts : LinkingOptions) (ai : AIState) (graph : Graph) (now : ℚ) :
    List RelatedHighlight :=
  ((applyTemporalDecay now (tierResults source store opts ai graph)).mergeSort
    (fun a b => decide (b.similarity ≤ a.similarity))).take opts.maxResults

/-- The error surfaced by `findRelatedHighlights`
(`throw new Error('Source highlight not found')`). -/
inductive LinkError where
  | notFound
  deriving DecidableEq, Repr

/-- Mutable index state of the `ConceptLinker` singleton. -/
structure LinkerState where
  lastIndexUpdate : ℚ
  conceptGraph : Graph

/-- `findRelatedHighlights` (`concept-linker.ts`, lines 84-142): refresh
the indexes when stale (refresh interval 5 minutes), fail with `notFound`
when the source id is absent from the store, otherwise run the tier
pipeline. -/
noncomputable def findRelatedHighlights (st : LinkerState) (store : List Highlight)
    (now : ℚ) (ai : AIState) (sourceHighlightId : Str) (opts : LinkingOptions) :
    Except LinkError (List RelatedHighlight) :=
  let graph := if 5 * 60 * 1000 < now - st.lastIndexUpdate
    then rebuildConceptGraph store else st.conceptGraph
  match store.find? (fun h => decide (h.id = sourceHighlightId)) with
  | none => .error .notFound
  | some source => .ok (findRelatedCore source store opts ai graph now)

/-- `stripFirst` leaves the word unchanged when no suffix in the list
matches with enough remaining stem. -/
theorem stripFirst_eq_self (w : Str) (L : List Str)
    (h : ∀ suf ∈ L, ¬(suf <:+ w ∧ suf.length + 2 < w.length)) :
    stripFirst w L = w := by
  induction L with
  | nil => rfl
  | cons suf rest ih =>
      rw [stripFirst, if_neg (h suf (by simp))]
      exact ih (fun s hs => h s (by simp [hs]))

/-- C3 (counterexample): the stemmer does not strip the longest matching
suffix. On "information" both "tion" and "ation" match with stem length
> 2; the spec's longest-suffix rule yields "inform", but `simpleStem`
checks "tion" first and yields "informa". -/
theorem simpleStem_not_longest_at_information :
    simpleStem "information".toList = "informa".toList ∧
    longestSuffixStem "information".toList = "inform".toList ∧
    simpleStem "information".toList ≠ longestSuffixStem "information".toList := by
  refine ⟨by decide, by decide, by decide⟩

/-- C3 (amended): the stemmer strips the *first* matching suffix in the
fixed order `ing, ed, es, s, ly, er, est, tion, ation` whose removal
leaves a stem longer than 2 characters, and leaves the token unchanged
when no such suffix exists. Since "tion" precedes "ation", a token
ending in "ation" of length at least 7 has only "tion" stripped. -/
theorem simpleStem_first_match (w : Str) :
    ("ation".toList <:+ w → 6 < w.length →
      simpleStem w = w.take (w.length - 4)) ∧
    ((∀ suf ∈ suffixList, ¬(suf <:+ w ∧ suf.length + 2 < w.length)) →
      simpleStem w = w) := by
  constructor
  · intro hsuf hlen
    have hno : ∀ s : Str, ¬(s <:+ "ation".toList) → s.length ≤ 5 → ¬(s <:+ w) :=
      fun s hns hsl hc =>
        hns (List.suffix_of_suffix_length_le hc hsuf (by simpa using hsl))
    have htion : "tion".toList <:+ w :=
      List.IsSuffix.trans (by decide) hsuf
    rw [simpleStem, suffixList]
    simp only [List.map_cons, List.map_nil]
    rw [stripFirst, if_neg (fun hc => hno _ (by decide) (by decide) hc.1)]
    rw [stripFirst, if_neg (fun hc => hno _ (by decide) (by decide) hc.1)]
    rw [stripFirst, if_neg (fun hc => hno _ (by decide) (by decide) hc.1)]
    rw [stripFirst, if_neg (fun hc => hno _ (by decide) (by decide) hc.1)]
    rw [stripFirst, if_neg (fun hc => hno _ (by decide) (by decide) hc.1)]
    rw [stripFirst, if_neg (fun hc => hno _ (by decide) (by decide) hc.1)]
    rw [stripFirst, if_neg (fun hc => hno _ (by decide) (by decide) hc.1)]
    rw [stripFirst, if_pos ⟨htion, by simpa using hlen⟩]
    rfl
  · exact stripFirst_eq_self w suffixList

/-- Witness for `simpleStem_first_match`: at "information" the first
part applies (only "tion" is stripped), and at "cat" no suffix matches. -/
theorem simpleStem_first_match_witness :
    simpleStem "information".toList
        = "information".toList.take ("information".toList.length - 4) ∧
    simpleStem "cat".toList = "cat".toList :=
  ⟨(simpleStem_first_match "information".toList).1 (by decide) (by decide),
   (simpleStem_first_match "cat".toList).2 (by decide)⟩

/-- A minimal concrete highlight used by the concrete evaluations below. -/
def sampleHighlight : Highlight :=
  { id := "h1".toList, pageTitle := [], text := [], note := [],
    color := .yellow, createdAt := 0, collectionIds := [], tags := [],
    concepts := [], relatedHighlightIds := [], topics := [],
    referenceCount := 0 }

/-- C1 (code defect): `applyTemporalDecay` boosts a fragment that is 100
days old. At `now` = epoch + 1000 days and `createdAt` = epoch + 900
days, the age (100 days = 8 640 000 000 ms) is far above 30 days
(2 592 000 000 ms), yet because the code compares the age against the
*timestamp* `now - 30 days` (83 808 000 000 ms) the fragment receives a
boost of `(1 - age/(now - 30 days)) * 0.1 = 87/970`, raising similarity
0.5 to 286/485. The claim says fragments aged 30 days or more are left
unboosted. -/
theorem temporalDecay_boosts_old_fragment :
    2592000000 < (86400000000 : ℚ) - 77760000000 ∧
    (applyTemporalDecay 86400000000
        [⟨{ sampleHighlight with createdAt := 77760000000 }, 0.5,
          .text_similarity, [], []⟩]).map RelatedHighlight.similarity
      = [(286 / 485 : ℝ)] := by
  constructor
  · norm_num
  · simp only [applyTemporalDecay, List.map_cons, List.map_nil]
    rw [if_pos (by norm_num)]
    push_cast
    norm_num [min_def]

/-- Concept "Python" (capitalized), as an AI concept extractor would
produce it. -/
def pythonConcept : ExtractedConcept := ⟨"Python".toList, 1, .technology, []⟩

/-- Concept "Django" (capitalized). -/
def djangoConcept : ExtractedConcept := ⟨"Django".toList, 1, .technology, []⟩

/-- A highlight carrying the two capitalized concepts. -/
def caseHighlight : Highlight :=
  { sampleHighlight with
    id := "hc".toList,
    concepts := [pythonConcept, djangoConcept] }

/-- C4 (code defect): the concept graph built by `rebuildIndexes` keys
nodes by the concepts' *original-case* names, not lower-cased ones, while
`findRelatedByConcepts` passes lower-cased names to
`calculateGraphSimilarity`. For a fragment with concepts "Python" and
"Django", the graph holds a node "Python" (with edge to "Django") and no
node "python", so the lower-cased lookup the similarity computation
performs finds no edge (similarity 0) even though the original-case
lookup would (similarity 1). -/
theorem conceptGraph_case_mismatch :
    jsGet (rebuildConceptGraph [caseHighlight]) "python".toList = none ∧
    jsGet (rebuildConceptGraph [caseHighlight]) "Python".toList
      = some ["Django".toList] ∧
    calculateGraphSimilarity (rebuildConceptGraph [caseHighlight])
      ["python".toList] ["django".toList] = 0 ∧
    calculateGraphSimilarity (rebuildConceptGraph [caseHighlight])
      ["Python".toList] ["Django".toList] = 1 := by
  have hg : rebuildConceptGraph [caseHighlight]
      = [("Python".toList, ["Django".toList]),
         ("Django".toList, ["Python".toList])] := by decide
  refine ⟨by decide, by decide, ?_, ?_⟩
  · rw [hg, calculateGraphSimilarity]
    rw [if_pos (by decide)]
    simp only [List.map_cons, List.map_nil, List.sum_cons, List.sum_nil, pairScore]
    rw [if_neg (by decide), if_neg (by decide)]
    norm_num
  · rw [hg, calculateGraphSimilarity]
    rw [if_pos (by decide)]
    simp only [List.map_cons, List.map_nil, List.sum_cons, List.sum_nil, pairScore]
    rw [if_pos (by decide)]
    norm_num

/-- The AI tier can never produce a result: the orchestrator hands
`linkConcepts` only candidates from which the source id has been
filtered out, and `linkConcepts` returns `[]` when it cannot find the
source id among the highlights it is given. -/
theorem findRelatedWithAI_eq_nil (source : Highlight) (store : List Highlight)
    (maxResults : ℕ) (excludeIds : List Str) (ai : AIState) :
    findRelatedWithAI source store maxResults excludeIds ai = [] := by
  have hfind : (candidatesOf source store excludeIds).find?
      (fun h => decide (h.id = source.id)) = none := by
    rw [List.find?_eq_none]
    intro h hmem
    simp only [candidatesOf, List.mem_filter, decide_eq_true_eq] at hmem
    simp only [decide_eq_true_eq]
    exact hmem.2.1
  rw [findRelatedWithAI, linkConcepts]
  simp [hfind]

/-- C2: for every linker state, store, clock, AI state, source id and
option set, `findRelatedHighlights` with `useAI := true` returns exactly
the same result as with `useAI := false`: the AI tier always yields zero
results (`findRelatedWithAI_eq_nil`), so the lower tiers run exactly as
if AI were disabled. -/
theorem findRelated_useAI_eq_noAI (st : LinkerState) (store : List Highlight)
    (now : ℚ) (ai : AIState) (sourceId : Str) (opts : LinkingOptions) :
    findRelatedHighlights st store now ai sourceId { opts with useAI := true }
      = findRelatedHighlights st store now ai sourceId { opts with useAI := false } := by
  rw [findRelatedHighlights, findRelatedHighlights]
  cases hfind : store.find? (fun h => decide (h.id = sourceId)) with
  | none => rfl
  | some source =>
      unfold findRelatedCore tierResults
      rcases ai with ⟨ava, nonloc, resp⟩
      classical
      cases ava <;> simp [findRelatedWithAI_eq_nil]

/-- C6: `findRelatedHighlights` fails (with its only error, `notFound`)
exactly when the source id is absent from the store, for every AI state
— including every transport outcome of the optional Semantic Linker
(`AIResponseOutcome.failure` and `.malformed` are handled inside the AI
tier and never surface). -/
theorem findRelated_error_iff_source_missing (st : LinkerState)
    (store : List Highlight) (now : ℚ) (ai : AIState) (sourceId : Str)
    (opts : LinkingOptions) :
    findRelatedHighlights st store now ai sourceId opts
        = Except.error LinkError.notFound ↔
      store.find? (fun h => decide (h.id = sourceId)) = none := by
  cases hfind : store.find? (fun h => decide (h.id = sourceId)) with
  | none => simp [findRelatedHighlights, hfind]
  | some source => simp [findRelatedHighlights, hfind]

open Classical in
/-- C8: `findRelatedCore` (the result list of a successful
`findRelatedHighlights` call) returns at most `maxResults` entries,
sorted by similarity descending, and for every similarity value the
entries carrying it appear as a prefix of the equally-scored entries of
the decayed tier output, in the same order — the final sort is stable,
so ties preserve the order produced by the selected strategy tier
(`applyTemporalDecay` is an order-preserving map). -/
theorem findRelatedCore_bounded_sorted_stable (source : Highlight)
    (store : List Highlight) (opts : LinkingOptions) (ai : AIState)
    (graph : Graph) (now : ℚ) :
    (findRelatedCore source store opts ai graph now).length ≤ opts.maxResults ∧
    (findRelatedCore source store opts ai graph now).Pairwise
      (fun a b => b.similarity ≤ a.similarity) ∧
    ∀ s : ℝ,
      (findRelatedCore source store opts ai graph now).filter
          (fun r => decide (r.similarity = s))
        <+: (applyTemporalDecay now (tierResults source store opts ai graph)).filter
          (fun r => decide (r.similarity = s)) := by
  unfold findRelatedCore
  generalize applyTemporalDecay now (tierResults source store opts ai graph) = d
  have htrans : ∀ a b c : RelatedHighlight,
      (fun a b : RelatedHighlight => decide (b.similarity ≤ a.similarity)) a b = true →
      (fun a b : RelatedHighlight => decide (b.similarity ≤ a.similarity)) b c = true →
      (fun a b : RelatedHighlight => decide (b.similarity ≤ a.similarity)) a c = true := by
    intro a b c
    simp only [decide_eq_true_eq]
    exact fun h1 h2 => le_trans h2 h1
  have htot : ∀ a b : RelatedHighlight,
      ((fun a b : RelatedHighlight => decide (b.similarity ≤ a.similarity)) a b ||
       (fun a b : RelatedHighlight => decide (b.similarity ≤ a.similarity)) b a) = true := by
    intro a b
    simp only [Bool.or_eq_true, decide_eq_true_eq]
    exact le_total b.similarity a.similarity
  refine ⟨List.length_take_le _ _, ?_, ?_⟩
  · have hs := List.sorted_mergeSort htrans htot d
    have h2 := List.Pairwise.sublist (List.take_sublist opts.maxResults _) hs
    exact h2.imp (fun hab => by simpa using hab)
  · intro s
    have hcall : ∀ r ∈ d.filter (fun r => decide (r.similarity = s)),
        r.similarity = s := fun r hr => by
      simpa using List.of_mem_filter hr
    have hc2 : (d.filter (fun r => decide (r.similarity = s))).Pairwise
        (fun a b : RelatedHighlight =>
          (fun a b : RelatedHighlight => decide (b.similarity ≤ a.similarity)) a b
            = true) :=
      List.pairwise_of_forall_mem_list (fun a ha b hb => by
        simp [hcall a ha, hcall b hb])
    have h3 := List.sublist_mergeSort htrans htot hc2 (List.filter_sublist d)
    have h5 : (d.filter (fun r => decide (r.similarity = s))).filter
        (fun r => decide (r.similarity = s))
        = d.filter (fun r => decide (r.similarity = s)) := by
      rw [List.filter_filter]
      simp
    have h4 := h5 ▸ List.Sublist.filter
      (fun r : RelatedHighlight => decide (r.similarity = s)) h3
    have hlen : (d.filter (fun r => decide (r.similarity = s))).length
        = (((d.mergeSort (fun a b => decide (b.similarity ≤ a.similarity))).filter
            (fun r => decide (r.similarity = s)))).length :=
      (((List.mergeSort_perm d _).filter _).length_eq).symm
    have heq := (h4.eq_of_length hlen).symm
    have hpre := List.IsPrefix.filter (fun r => decide (r.similarity = s))
      ( List.take_prefix opts.maxResults
        (d.mergeSort (fun a b => decide (b.similarity ≤ a.similarity))))
    rw [heq] at hpre
    exact hpre

/-- Every pair of concepts scores a nonnegative graph contribution. -/
theorem pairScore_nonneg (g : Graph) (s t : Str) : 0 ≤ pairScore g s t := by
  unfold pairScore
  dsimp only
  split
  · norm_num
  · split <;> norm_num

/-- Graph similarity is nonnegative. -/
theorem calculateGraphSimilarity_nonneg (g : Graph) (src tgt : List Str) :
    0 ≤ calculateGraphSimilarity g src tgt := by
  unfold calculateGraphSimilarity
  dsimp only
  split
  · apply div_nonneg
    · apply List.sum_nonneg
      intro x hx
      obtain ⟨a, _, rfl⟩ := List.mem_map.mp hx
      apply List.sum_nonneg
      intro y hy
      obtain ⟨b, _, rfl⟩ := List.mem_map.mp hy
      exact pairScore_nonneg g a b
    · positivity
  · exact le_refl 0

/-- All category weights are positive. -/
theorem categoryWeight_pos (cat : ConceptCategory) : 0 < categoryWeight cat := by
  cases cat <;> norm_num [categoryWeight]

/-- The category fold keeps both accumulator components nonnegative. -/
theorem categoryFold_nonneg (srcBy tgtBy : ConceptCategory → List Str)
    (cats : List ConceptCategory) (acc : ℝ × ℝ)
    (h1 : 0 ≤ acc.1) (h2 : 0 ≤ acc.2) :
    0 ≤ (cats.foldl (categoryStep srcBy tgtBy) acc).1 ∧
    0 ≤ (cats.foldl (categoryStep srcBy tgtBy) acc).2 := by
  induction cats generalizing acc with
  | nil => exact ⟨h1, h2⟩
  | cons cat rest ih =>
      simp only [List.foldl_cons]
      apply ih
      · unfold categoryStep
        dsimp only
        split
        · exact h1
        · have : (0 : ℝ) ≤ ((List.filter (fun x => decide (x ∈ tgtBy cat))
              (srcBy cat)).length : ℝ)
              / Real.sqrt (((srcBy cat).length : ℝ) * ((tgtBy cat).length : ℝ)) :=
            div_nonneg (by positivity) (Real.sqrt_nonneg _)
          have hw := (categoryWeight_pos cat).le
          dsimp only
          nlinarith
      · unfold categoryStep
        dsimp only
        split
        · exact h2
        · have hw := (categoryWeight_pos cat).le
          dsimp only
          linarith

/-- Category-weighted similarity is nonnegative. -/
theorem calculateCategorySimilarity_nonneg
    (srcBy tgtBy : ConceptCategory → List Str) :
    0 ≤ calculateCategorySimilarity srcBy tgtBy := by
  unfold calculateCategorySimilarity
  dsimp only
  split
  · exact div_nonneg
      (categoryFold_nonneg srcBy tgtBy categoriesList (0, 0) le_rfl le_rfl).1
      (categoryFold_nonneg srcBy tgtBy categoriesList (0, 0) le_rfl le_rfl).2
  · exact le_refl 0

/-- Every entry produced by the concept tier has nonnegative similarity. -/
theorem findRelatedByConcepts_nonneg (source : Highlight)
    (store : List Highlight) (minSimilarity : ℝ) (excludeIds : List Str)
    (graph : Graph) (r : RelatedHighlight)
    (hr : r ∈ findRelatedByConcepts source store minSimilarity excludeIds graph) :
    0 ≤ r.similarity := by
  simp only [findRelatedByConcepts, List.mem_filterMap] at hr
  obtain ⟨cand, _, hf⟩ := hr
  split at hf
  · exact absurd hf (by simp)
  · split at hf
    · cases hf
      have hd : (0 : ℝ) ≤ ((List.filter
            (fun x => decide (x ∈ (cand.concepts.map
              (fun c => toLowerStr c.name)).dedup))
            ((source.concepts.map (fun c => toLowerStr c.name)).dedup)).length : ℝ)
          / Real.sqrt
            ((((source.concepts.map (fun c => toLowerStr c.name)).dedup).length : ℝ)
              * (((cand.concepts.map (fun c => toLowerStr c.name)).dedup).length : ℝ)) :=
        div_nonneg (by positivity) (Real.sqrt_nonneg _)
      have hg := calculateGraphSimilarity_nonneg graph
        ((source.concepts.map (fun c => toLowerStr c.name)).dedup)
        ((cand.concepts.map (fun c => toLowerStr c.name)).dedup)
      have hc := calculateCategorySimilarity_nonneg
        (groupConceptsByCategory source.concepts)
        (groupConceptsByCategory cand.concepts)
      dsimp only
      nlinarith
    · exact absurd hf (by simp)

/-- Every IDF value of `calculateIDF` is nonnegative: every indexed term
occurs in at least one document, so `1 ≤ n / df` and the logarithm is
nonnegative. -/
theorem calculateIDF_nonneg (hs : List Highlight) (p : Str × ℝ)
    (hp : p ∈ calculateIDF hs) : 0 ≤ p.2 := by
  simp only [calculateIDF, List.mem_map] at hp
  obtain ⟨t, ht, rfl⟩ := hp
  apply Real.log_nonneg
  have hmem : ∃ h ∈ hs, t ∈ extractWords h.text := by
    rw [List.mem_dedup] at ht
    obtain ⟨h, hh, htw⟩ := List.mem_flatMap.mp ht
    exact ⟨h, hh, List.mem_dedup.mp htw⟩
  have hdfpos : 0 < (hs.filter (fun h => decide (t ∈ extractWords h.text))).length := by
    apply List.length_pos.mpr
    intro hc
    obtain ⟨h, hh, htw⟩ := hmem
    have : h ∈ hs.filter (fun h => decide (t ∈ extractWords h.text)) :=
      List.mem_filter.mpr ⟨hh, by simpa using htw⟩
    rw [hc] at this
    cases this
  have hdfle : (hs.filter (fun h => decide (t ∈ extractWords h.text))).length
      ≤ hs.length := List.length_filter_le _ _
  rw [le_div_iff₀ (by exact_mod_cast hdfpos)]
  rw [one_mul]
  exact_mod_cast hdfle

/-- A defaulted map lookup out of a map with nonnegative values is
nonnegative. -/
theorem jsGetD_nonneg (v : List (Str × ℝ)) (k : Str)
    (hv : ∀ p ∈ v, 0 ≤ p.2) : 0 ≤ jsGetD v k 0 := by
  cases hf : v.find? (fun p => decide (p.1 = k)) with
  | none => simp [jsGetD, jsGet, hf]
  | some q =>
      have hq : jsGetD v k 0 = q.2 := by simp [jsGetD, jsGet, hf]
      rw [hq]
      exact hv q (List.mem_of_find?_eq_some hf)

/-- Every TF-IDF vector entry is nonnegative when the IDF map is. -/
theorem calculateTFIDFVector_nonneg (text : Str) (idfValues : List (Str × ℝ))
    (hidf : ∀ p ∈ idfValues, 0 ≤ p.2) (p : Str × ℝ)
    (hp : p ∈ calculateTFIDFVector text idfValues) : 0 ≤ p.2 := by
  simp only [calculateTFIDFVector, List.mem_map] at hp
  obtain ⟨t, _, rfl⟩ := hp
  exact mul_nonneg (by positivity) (jsGetD_nonneg idfValues t hidf)

/-- Cosine similarity of vectors with nonnegative entries is
nonnegative. -/
theorem cosineSimilarity_nonneg (vecA vecB : List (Str × ℝ))
    (hA : ∀ p ∈ vecA, 0 ≤ p.2) (hB : ∀ p ∈ vecB, 0 ≤ p.2) :
    0 ≤ cosineSimilarity vecA vecB := by
  unfold cosineSimilarity
  dsimp only
  split
  · exact le_refl 0
  · apply div_nonneg
    · apply List.sum_nonneg
      intro x hx
      obtain ⟨q, hq, rfl⟩ := List.mem_map.mp hx
      exact mul_nonneg (hA q hq) (jsGetD_nonneg vecB q.1 hB)
    · exact mul_nonneg (Real.sqrt_nonneg _) (Real.sqrt_nonneg _)

/-- Every entry produced by the TF-IDF tier has nonnegative similarity. -/
theorem findRelatedByTFIDF_nonneg (source : Highlight) (store : List Highlight)
    (minSimilarity : ℝ) (excludeIds : List Str) (r : RelatedHighlight)
    (hr : r ∈ findRelatedByTFIDF source store minSimilarity excludeIds) :
    0 ≤ r.similarity := by
  simp only [findRelatedByTFIDF, List.mem_filterMap] at hr
  obtain ⟨cand, _, hf⟩ := hr
  split at hf
  · cases hf
    exact cosineSimilarity_nonneg _ _
      (calculateTFIDFVector_nonneg _ _ (calculateIDF_nonneg store))
      (calculateTFIDFVector_nonneg _ _ (calculateIDF_nonneg store))
  · exact absurd hf (by simp)

open Classical in
/-- Every entry of the selected strategy tier has nonnegative
similarity: the AI tier is empty, and the other two tiers produce only
nonnegative scores. -/
theorem tierResults_nonneg (source : Highlight) (store : List Highlight)
    (opts : LinkingOptions) (ai : AIState) (graph : Graph)
    (r : RelatedHighlight) (hr : r ∈ tierResults source store opts ai graph) :
    0 ≤ r.similarity := by
  unfold tierResults at hr
  simp only [findRelatedWithAI_eq_nil, ite_self] at hr
  split at hr
  · split at hr
    · exact findRelatedByTFIDF_nonneg source store opts.minSimilarity
        opts.excludeIds r hr
    · exact findRelatedByConcepts_nonneg source store opts.minSimilarity
        opts.excludeIds graph r hr
  · rw [if_pos rfl] at hr
    exact findRelatedByTFIDF_nonneg source store opts.minSimilarity
      opts.excludeIds r hr

open Classical in
/-- C5: whenever the clock reads a time later than 30 days past the
epoch (as `Date.now()` always does), every entry of the result list of
`findRelatedHighlights` (`findRelatedCore`) has a similarity score in
[0,1]: the AI tier produces no entries at all (so its synthetic scores
`0.9 - 0.1*rank` appear at no rank), the concept and TF-IDF tiers
produce only nonnegative scores, the temporal boost is nonnegative, and
the decay step clamps the boosted score at 1. -/
theorem findRelatedCore_similarity_in_unit_interval (source : Highlight)
    (store : List Highlight) (opts : LinkingOptions) (ai : AIState)
    (graph : Graph) (now : ℚ) (hnow : 2592000000 < now) :
    ∀ r ∈ findRelatedCore source store opts ai graph now,
      0 ≤ r.similarity ∧ r.similarity ≤ 1 := by
  intro r hr
  unfold findRelatedCore at hr
  have hr2 : r ∈ applyTemporalDecay now (tierResults source store opts ai graph) :=
    (List.mergeSort_perm _ _).mem_iff.mp (List.mem_of_mem_take hr)
  simp only [applyTemporalDecay, List.mem_map] at hr2
  obtain ⟨x, hx, rfl⟩ := hr2
  dsimp only
  have hb : (0:ℚ) ≤ (if now - x.highlight.createdAt
        < now - 30 * 24 * 60 * 60 * 1000 then
      (1 - (now - x.highlight.createdAt) / (now - 30 * 24 * 60 * 60 * 1000)) * 0.1
    else 0) := by
    split
    · rename_i hage
      have hT : (0:ℚ) < now - 30 * 24 * 60 * 60 * 1000 := by linarith
      have hratio : (now - x.highlight.createdAt)
          / (now - 30 * 24 * 60 * 60 * 1000) < 1 := (div_lt_one hT).mpr hage
      nlinarith
    · exact le_refl 0
  constructor
  · apply le_min (by norm_num)
    apply add_nonneg (tierResults_nonneg source store opts ai graph x hx)
    exact_mod_cast hb
  · exact min_le_left _ _

/-- After a whitespace run is dropped behind a token, strictly fewer
characters remain (the run is nonempty). -/
theorem dropWS_length_lt (l : Str)
    (h : l.dropWhile (fun c => !c.isWhitespace) ≠ []) :
    ((l.dropWhile (fun c => !c.isWhitespace)).dropWhile Char.isWhitespace).length
      < l.length := by
  obtain ⟨c, t, hct⟩ : ∃ c t, l.dropWhile (fun c => !c.isWhitespace) = c :: t := by
    cases hl : l.dropWhile (fun c => !c.isWhitespace) with
    | nil => exact absurd hl h
    | cons c t => exact ⟨c, t, rfl⟩
  have hc : c.isWhitespace = true := by
    have := List.head_dropWhile_not (fun c => !c.isWhitespace) l h
    simpa [hct] using this
  calc ((l.dropWhile (fun c => !c.isWhitespace)).dropWhile Char.isWhitespace).length
      = ((c :: t).dropWhile Char.isWhitespace).length := by rw [hct]
    _ = (t.dropWhile Char.isWhitespace).length := by simp [List.dropWhile_cons, hc]
    _ ≤ t.length := (List.dropWhile_sublist _).length_le
    _ < (c :: t).length := by simp
    _ ≤ l.length := by rw [← hct]; exact (List.dropWhile_sublist _).length_le

/-- Any fuel above the string length yields the same splitting. -/
theorem splitWSFuel_congr (f1 : ℕ) : ∀ (f2 : ℕ) (l : Str),
    l.length < f1 → l.length < f2 → splitWSFuel f1 l = splitWSFuel f2 l := by
  induction f1 with
  | zero => intro f2 l h1 _; exact absurd h1 (by omega)
  | succ n ih =>
      intro f2 l h1 h2
      obtain ⟨m, rfl⟩ : ∃ m, f2 = m + 1 := ⟨f2 - 1, by omega⟩
      rw [splitWSFuel, splitWSFuel]
      split
      · rfl
      · rename_i hrest
        congr 1
        have hlt := dropWS_length_lt l hrest
        exact ih m _ (by omega) (by omega)

/-- The fuel-free recurrence of `splitWS`: take the stretch before the
next whitespace run as a token; if nothing remains that is the only
token, otherwise drop the whitespace run and continue. -/
theorem splitWS_eq (l : Str) :
    splitWS l = if l.dropWhile (fun c => !c.isWhitespace) = []
      then [l.takeWhile (fun c => !c.isWhitespace)]
      else l.takeWhile (fun c => !c.isWhitespace)
        :: splitWS ((l.dropWhile (fun c => !c.isWhitespace)).dropWhile
            Char.isWhitespace) := by
  unfold splitWS
  rw [splitWSFuel]
  split
  · rfl
  · rename_i hrest
    congr 1
    have hlt := dropWS_length_lt l hrest
    exact splitWSFuel_congr l.length _ _ (by omega) (by omega)

/-- Every character of every token of `splitWSFuel` comes from the
split string. -/
theorem mem_of_mem_splitWSFuel : ∀ (fuel : ℕ) (l p : Str) (c : Char),
    p ∈ splitWSFuel fuel l → c ∈ p → c ∈ l := by
  intro fuel
  induction fuel with
  | zero => intro l p c hp _; cases hp
  | succ n ih =>
      intro l p c hp hc
      rw [splitWSFuel] at hp
      split at hp
      · rw [List.mem_singleton] at hp
        subst hp
        exact (List.takeWhile_sublist _).mem hc
      · rcases List.mem_cons.mp hp with hp | hp
        · subst hp
          exact (List.takeWhile_sublist _).mem hc
        · have := ih _ _ _ hp hc
          exact (List.dropWhile_sublist _).mem ((List.dropWhile_sublist _).mem this)

/-- Witness for `findRelatedCore_similarity_in_unit_interval` at a
concrete clock and store. -/
theorem findRelatedCore_similarity_in_unit_interval_witness :
    (2592000000 : ℚ) < 2592000001 ∧
    ∀ r ∈ findRelatedCore sampleHighlight [sampleHighlight] {}
        ⟨false, false, .malformed⟩ [] 2592000001,
      0 ≤ r.similarity ∧ r.similarity ≤ 1 :=
  ⟨by norm_num,
   findRelatedCore_similarity_in_unit_interval sampleHighlight [sampleHighlight]
     {} ⟨false, false, .malformed⟩ [] 2592000001 (by norm_num)⟩

/-- On a map with pairwise distinct keys, `jsGet` retrieves each entry's
own value. -/
theorem jsGet_self (v : List (Str × ℝ)) (hnd : (v.map Prod.fst).Nodup) :
    ∀ p ∈ v, jsGet v p.1 = some p.2 := by
  induction v with
  | nil => intro p hp; cases hp
  | cons q rest ih =>
      intro p hp
      rw [List.map_cons, List.nodup_cons] at hnd
      rcases List.mem_cons.mp hp with rfl | hp'
      · simp [jsGet]
      · have hne : ¬(q.1 = p.1) := fun he =>
          hnd.1 (he ▸ List.mem_map_of_mem Prod.fst hp')
        have := ih hnd.2 p hp'
        simpa [jsGet, List.find?_cons, hne] using this

/-- Dot product of a nodup-keyed vector with itself is its sum of
squares. -/
theorem dot_self (v : List (Str × ℝ)) (hnd : (v.map Prod.fst).Nodup) :
    (v.map (fun p => p.2 * jsGetD v p.1 0)).sum
      = (v.map (fun p => p.2 * p.2)).sum :=
  congrArg List.sum (List.map_congr_left (fun p hp => by
    rw [jsGetD, jsGet_self v hnd p hp]
    rfl))

/-- TF-IDF vectors have pairwise distinct keys (they are built over the
deduplicated word list). -/
theorem tfidf_keys_nodup (text : Str) (idf : List (Str × ℝ)) :
    ((calculateTFIDFVector text idf).map Prod.fst).Nodup := by
  unfold calculateTFIDFVector
  simp only [List.map_map]
  have hcomp : (Prod.fst ∘ fun t =>
      (t, ((extractWords text).count t : ℝ) * jsGetD idf t 0)) = id := rfl
  rw [hcomp, List.map_id]
  exact List.nodup_dedup _

open Classical in
/-- C7 (amended): two fragments with identical text have TF-IDF cosine
similarity exactly 1 in every corpus for which the shared TF-IDF vector
has a nonzero sum of squared weights; when that sum is zero (for
example, a corpus in which every term of the text occurs in all
documents, or an empty text) the zero-magnitude guard returns 0
instead. -/
theorem cosine_identical_eq_one_of_nonzero (corpus : List Highlight)
    (tA tB : Str) (heq : tA = tB)
    (hnz : ((calculateTFIDFVector tA (calculateIDF corpus)).map
        (fun p => p.2 * p.2)).sum ≠ 0) :
    cosineSimilarity (calculateTFIDFVector tA (calculateIDF corpus))
      (calculateTFIDFVector tB (calculateIDF corpus)) = 1 := by
  subst heq
  have hnd := tfidf_keys_nodup tA (calculateIDF corpus)
  have hdot := dot_self _ hnd
  have hS : (0:ℝ) ≤ ((calculateTFIDFVector tA (calculateIDF corpus)).map
      (fun p => p.2 * p.2)).sum :=
    List.sum_nonneg (fun x hx => by
      obtain ⟨p, _, rfl⟩ := List.mem_map.mp hx
      exact mul_self_nonneg p.2)
  have hSpos : (0:ℝ) < ((calculateTFIDFVector tA (calculateIDF corpus)).map
      (fun p => p.2 * p.2)).sum := lt_of_le_of_ne hS (Ne.symm hnz)
  have hsq : Real.sqrt (((calculateTFIDFVector tA (calculateIDF corpus)).map
      (fun p => p.2 * p.2)).sum) ≠ 0 :=
    ne_of_gt (Real.sqrt_pos.mpr hSpos)
  unfold cosineSimilarity
  rw [if_neg (by push_neg; exact ⟨hsq, hsq⟩)]
  rw [hdot, Real.mul_self_sqrt hS, div_self hnz]

/-- The text shared by the two identical fragments below. -/
def textML : Str := "machine learning".toList

/-- First fragment with text "machine learning". -/
def hML1 : Highlight := { sampleHighlight with id := "a".toList, text := textML }

/-- Second fragment with the identical text. -/
def hML2 : Highlight := { sampleHighlight with id := "b".toList, text := textML }

/-- A third fragment with unrelated text, used by the witness corpus. -/
def hZebra : Highlight :=
  { sampleHighlight with id := "z".toList, text := "zebra yak".toList }

/-- A defaulted lookup in a map whose values are all zero is zero. -/
theorem jsGetD_zero (v : List (Str × ℝ)) (k : Str)
    (hv : ∀ p ∈ v, p.2 = 0) : jsGetD v k 0 = 0 := by
  cases hf : v.find? (fun p => decide (p.1 = k)) with
  | none => simp [jsGetD, jsGet, hf]
  | some q =>
      have hq : jsGetD v k 0 = q.2 := by simp [jsGetD, jsGet, hf]
      rw [hq]
      exact hv q (List.mem_of_find?_eq_some hf)

/-- In the two-document corpus of the two identical fragments, every
term occurs in both documents, so every IDF value is `ln(2/2) = 0`. -/
theorem calculateIDF_two_doc_zero (p : Str × ℝ)
    (hp : p ∈ calculateIDF [hML1, hML2]) : p.2 = 0 := by
  simp only [calculateIDF, List.mem_map] at hp
  obtain ⟨t, ht, rfl⟩ := hp
  have hterms : (([hML1, hML2].flatMap
      (fun h => (extractWords h.text).dedup)).dedup)
      = ["machine".toList, "learn".toList] := by decide
  rw [hterms] at ht
  have hdf : ([hML1, hML2].filter
      (fun h => decide (t ∈ extractWords h.text))).length = 2 := by
    rcases List.mem_cons.mp ht with rfl | ht2
    · decide
    · rcases List.mem_cons.mp ht2 with rfl | ht3
      · decide
      · cases ht3
  rw [hdf]
  norm_num

open Classical in
/-- C7 (counterexample): in the corpus consisting of exactly the two
fragments with identical text "machine learning", every term has
document frequency equal to the corpus size, all TF-IDF weights are
`ln(2/2) = 0`, both vectors have zero magnitude, and `cosineSimilarity`
returns 0 — not 1 within tolerance 1e-9 as the claim requires for every
corpus containing both fragments. -/
theorem cosine_identical_two_doc_zero :
    cosineSimilarity (calculateTFIDFVector hML1.text (calculateIDF [hML1, hML2]))
        (calculateTFIDFVector hML2.text (calculateIDF [hML1, hML2])) = 0 ∧
    (1e-9 : ℝ) <
      |cosineSimilarity
          (calculateTFIDFVector hML1.text (calculateIDF [hML1, hML2]))
          (calculateTFIDFVector hML2.text (calculateIDF [hML1, hML2])) - 1| := by
  have hvalz : ∀ p ∈ calculateTFIDFVector hML1.text (calculateIDF [hML1, hML2]),
      (fun q : Str × ℝ => q.2 * q.2) p = 0 := by
    intro p hp
    simp only [calculateTFIDFVector, List.mem_map] at hp
    obtain ⟨t, _, rfl⟩ := hp
    have : jsGetD (calculateIDF [hML1, hML2]) t 0 = 0 :=
      jsGetD_zero _ _ calculateIDF_two_doc_zero
    simp [this]
  have hS : ((calculateTFIDFVector hML1.text (calculateIDF [hML1, hML2])).map
      (fun p => p.2 * p.2)).sum = 0 := by
    rw [List.map_congr_left hvalz]
    simp
  have hcos : cosineSimilarity
      (calculateTFIDFVector hML1.text (calculateIDF [hML1, hML2]))
      (calculateTFIDFVector hML2.text (calculateIDF [hML1, hML2])) = 0 := by
    unfold cosineSimilarity
    rw [if_pos]
    left
    show Real.sqrt ((List.map (fun p => p.2 * p.2)
      (calculateTFIDFVector hML1.text (calculateIDF [hML1, hML2]))).sum) = 0
    rw [hS, Real.sqrt_zero]
  refine ⟨hcos, ?_⟩
  rw [hcos]
  norm_num

/-- Concrete TF-IDF vector of "machine learning" over the three-document
witness corpus: both terms occur in 2 of 3 documents. -/
theorem tfidf_three_doc_vec :
    calculateTFIDFVector textML (calculateIDF [hML1, hML2, hZebra])
      = [("machine".toList, ((1:ℕ):ℝ) * Real.log (((3:ℕ):ℝ) / ((2:ℕ):ℝ))),
         ("learn".toList, ((1:ℕ):ℝ) * Real.log (((3:ℕ):ℝ) / ((2:ℕ):ℝ)))] := by
  rfl

/-- Witness for `cosine_identical_eq_one_of_nonzero`: over the corpus
[hML1, hML2, hZebra] the shared vector of "machine learning" has sum of
squares `2 * ln(3/2)^2 > 0`, and the cosine similarity is exactly 1. -/
theorem cosine_identical_eq_one_witness :
    ((calculateTFIDFVector textML (calculateIDF [hML1, hML2, hZebra])).map
        (fun p => p.2 * p.2)).sum ≠ 0 ∧
    cosineSimilarity
        (calculateTFIDFVector textML (calculateIDF [hML1, hML2, hZebra]))
        (calculateTFIDFVector textML (calculateIDF [hML1, hML2, hZebra])) = 1 := by
  have hnz : ((calculateTFIDFVector textML (calculateIDF [hML1, hML2, hZebra])).map
      (fun p => p.2 * p.2)).sum ≠ 0 := by
    rw [tfidf_three_doc_vec]
    simp only [List.map_cons, List.map_nil, List.sum_cons, List.sum_nil]
    have hlp : 0 < Real.log (((3:ℕ):ℝ) / ((2:ℕ):ℝ)) := by
      apply Real.log_pos
      norm_num
    push_cast
    nlinarith
  exact ⟨hnz,
    cosine_identical_eq_one_of_nonzero [hML1, hML2, hZebra] textML textML rfl hnz⟩

/-- `Char.toNat` cancels `Char.ofNat` on valid code points. -/
theorem charToNat_ofNat (n : ℕ) (h : n.isValidChar) : (Char.ofNat n).toNat = n := by
  unfold Char.ofNat
  rw [dif_pos h]
  rfl

/-- ASCII lowercasing is idempotent: the image of `Char.toLower` contains
no uppercase A-Z code point. -/
theorem toLower_idem (c : Char) : (Char.toLower c).toLower = Char.toLower c := by
  unfold Char.toLower
  by_cases h : c.toNat ≥ 65 ∧ c.toNat ≤ 90
  · rw [if_pos h]
    have hv : (c.toNat + 32).isValidChar := Or.inl (by omega)
    rw [charToNat_ofNat _ hv]
    rw [if_neg (by omega)]
  · rw [if_neg h, if_neg h]

/-- An element of an interspersed list is the separator or an element of
the original list. -/
theorem mem_intersperse_cases {α : Type} (sep : α) (xs : List α) (a : α)
    (h : a ∈ List.intersperse sep xs) : a = sep ∨ a ∈ xs := by
  induction xs with
  | nil => cases h
  | cons x tl ih =>
      cases tl with
      | nil =>
          simp only [List.intersperse_singleton, List.mem_singleton] at h
          exact Or.inr (by simp [h])
      | cons y tl2 =>
          rw [List.intersperse_cons_cons] at h
          rcases List.mem_cons.mp h with rfl | h2
          · simp
          · rcases List.mem_cons.mp h2 with rfl | h3
            · exact Or.inl rfl
            · rcases ih h3 with h4 | h4
              · exact Or.inl h4
              · exact Or.inr (List.mem_cons_of_mem x h4)

/-- Every character of the joined full-query phrase is lowercase-fixed:
it is either the space separator or a character of the lowercased
query. -/
theorem fq_chars_lower (query : Str) (c : Char)
    (hc : c ∈ List.intercalate [' '] (splitWS (toLowerStr query))) :
    Char.toLower c = c := by
  rw [List.intercalate] at hc
  obtain ⟨l, hl, hcl⟩ := List.mem_flatten.mp hc
  rcases mem_intersperse_cases _ _ _ hl with rfl | hl2
  · rw [List.mem_singleton] at hcl
    subst hcl
    decide
  · have hcq : c ∈ toLowerStr query :=
      mem_of_mem_splitWSFuel _ _ _ _ hl2 hcl
    obtain ⟨d, _, rfl⟩ := List.mem_map.mp hcq
    exact toLower_idem d

/-- A string whose characters are all lowercase-fixed is unchanged by
lowercasing. -/
theorem toLowerStr_eq_self (l : Str) (h : ∀ c ∈ l, Char.toLower c = c) :
    toLowerStr l = l := by
  unfold toLowerStr
  conv_rhs => rw [← List.map_id l]
  exact List.map_congr_left h

/-- A substring of `a` is a substring of `a ++ b`. -/
theorem isInfixAppendRight {t a : Str} (h : t <:+: a) (b : Str) :
    t <:+: a ++ b := by
  obtain ⟨s, u, hsu⟩ := h
  exact ⟨s, u ++ b, by rw [← hsu]; simp⟩

/-- `a ++ t` contains `t` as a substring. -/
theorem isInfixOfAppendSelf (t a : Str) : t <:+: a ++ t :=
  ⟨a, [], by simp⟩

/-- C9: for every fragment and every non-empty query whose full
(lowercased, whitespace-joined) phrase is not already a substring of the
fragment's lowercased text, appending the phrase to the fragment's text
— all other fields unchanged — strictly increases the relevance score:
the exact-phrase text bonus (+10) switches on, and every per-term text
match can only switch on as well. -/
theorem relevance_strictly_increases_with_phrase (h : Highlight) (query : Str)
    (now : ℚ) (hne : query ≠ [])
    (hnotin : ¬ (List.intercalate [' '] (splitWS (toLowerStr query))
      <:+: toLowerStr h.text)) :
    calculateRelevanceScore h (splitWS (toLowerStr query)) now
      < calculateRelevanceScore
          { h with text := h.text
              ++ List.intercalate [' '] (splitWS (toLowerStr query)) }
          (splitWS (toLowerStr query)) now := by
  have hfq : toLowerStr (List.intercalate [' '] (splitWS (toLowerStr query)))
      = List.intercalate [' '] (splitWS (toLowerStr query)) :=
    toLowerStr_eq_self _ (fq_chars_lower query)
  have htext : toLowerStr (h.text
      ++ List.intercalate [' '] (splitWS (toLowerStr query)))
      = toLowerStr h.text
        ++ List.intercalate [' '] (splitWS (toLowerStr query)) := by
    unfold toLowerStr
    rw [List.map_append]
    exact congrArg _ hfq
  simp only [calculateRelevanceScore]
  dsimp only
  rw [htext]
  have hA1 : (if List.intercalate [' '] (splitWS (toLowerStr query))
      <:+: toLowerStr h.text then (10:ℚ) else 0) = 0 := if_neg hnotin
  have hA2 : (if List.intercalate [' '] (splitWS (toLowerStr query))
      <:+: toLowerStr h.text
        ++ List.intercalate [' '] (splitWS (toLowerStr query))
      then (10:ℚ) else 0) = 10 :=
    if_pos (isInfixOfAppendSelf _ _)
  rw [hA1, hA2]
  have hsum : ((splitWS (toLowerStr query)).map
        (termScore h (toLowerStr h.text) (toLowerStr h.note)
          (toLowerStr h.pageTitle))).sum
      ≤ ((splitWS (toLowerStr query)).map
        (termScore h (toLowerStr h.text
            ++ List.intercalate [' '] (splitWS (toLowerStr query)))
          (toLowerStr h.note) (toLowerStr h.pageTitle))).sum := by
    apply List.sum_le_sum
    intro t _
    unfold termScore
    have hmono : (if t <:+: toLowerStr h.text then (3:ℚ) else 0)
        ≤ (if t <:+: toLowerStr h.text
            ++ List.intercalate [' '] (splitWS (toLowerStr query))
          then 3 else 0) := by
      by_cases ht : t <:+: toLowerStr h.text
      · rw [if_pos ht, if_pos (isInfixAppendRight ht _)]
      · rw [if_neg ht]
        split <;> norm_num
    linarith
  have hts : termScore
      { h with text := h.text ++ List.intercalate [' '] (splitWS (toLowerStr query)) }
      (toLowerStr h.text ++ List.intercalate [' '] (splitWS (toLowerStr query)))
      (toLowerStr h.note) (toLowerStr h.pageTitle)
      = termScore h
        (toLowerStr h.text ++ List.intercalate [' '] (splitWS (toLowerStr query)))
        (toLowerStr h.note) (toLowerStr h.pageTitle) := rfl
  rw [hts]
  linarith

/-- Witness for `relevance_strictly_increases_with_phrase`: a concrete
fragment with empty text and the query "find this". -/
theorem relevance_increase_witness :
    ("find this".toList ≠ ([] : Str)) ∧
    ¬ (List.intercalate [' '] (splitWS (toLowerStr "find this".toList))
        <:+: toLowerStr sampleHighlight.text) ∧
    calculateRelevanceScore sampleHighlight
        (splitWS (toLowerStr "find this".toList)) 0
      < calculateRelevanceScore
          { sampleHighlight with text := sampleHighlight.text
              ++ List.intercalate [' '] (splitWS (toLowerStr "find this".toList)) }
          (splitWS (toLowerStr "find this".toList)) 0 :=
  ⟨by decide, by decide,
   relevance_strictly_increases_with_phrase sampleHighlight "find this".toList 0
     (by decide) (by decide)⟩

/-- A conditional bonus is nonnegative. -/
theorem iteNonnegQ (P : Prop) [Decidable P] (k : ℚ) (hk : 0 ≤ k) :
    0 ≤ if P then k else 0 := by
  split
  · exact hk
  · exact le_rfl

/-- Every per-term score summand is nonnegative. -/
theorem termScore_nonneg (hl : Highlight) (text note title t : Str) :
    0 ≤ termScore hl text note title t := by
  unfold termScore
  have h1 := iteNonnegQ (t <:+: text) 3 (by norm_num)
  have h2 := iteNonnegQ (t <:+: note) 2 (by norm_num)
  have h3 := iteNonnegQ (t <:+: title) 1 (by norm_num)
  have h4 := iteNonnegQ (hl.concepts.any
    (fun c => decide (t <:+: toLowerStr c.name)) = true) 4 (by norm_num)
  have h5 := iteNonnegQ (hl.topics.any
    (fun c => decide (t <:+: toLowerStr c)) = true) 3 (by norm_num)
  have h6 := iteNonnegQ (hl.tags.any
    (fun c => decide (t <:+: toLowerStr c)) = true) 2 (by norm_num)
  linarith

/-- The empty term scores at least the +3 text bonus: the empty string
is a substring of everything. -/
theorem termScore_nil_ge (hl : Highlight) (text note title : Str) :
    3 ≤ termScore hl text note title [] := by
  unfold termScore
  have h1 : (if ([] : Str) <:+: text then (3:ℚ) else 0) = 3 :=
    if_pos List.nil_infix
  have h2 := iteNonnegQ (([] : Str) <:+: note) 2 (by norm_num)
  have h3 := iteNonnegQ (([] : Str) <:+: title) 1 (by norm_num)
  have h4 := iteNonnegQ (hl.concepts.any
    (fun c => decide (([] : Str) <:+: toLowerStr c.name)) = true) 4 (by norm_num)
  have h5 := iteNonnegQ (hl.topics.any
    (fun c => decide (([] : Str) <:+: toLowerStr c)) = true) 3 (by norm_num)
  have h6 := iteNonnegQ (hl.tags.any
    (fun c => decide (([] : Str) <:+: toLowerStr c)) = true) 2 (by norm_num)
  linarith

/-- Splitting an all-whitespace (or empty) string produces the empty
token. -/
theorem nil_mem_splitWS_of_whitespace (query : Str)
    (hws : ∀ c ∈ query, c.isWhitespace = true) :
    ([] : Str) ∈ splitWS (toLowerStr query) := by
  cases query with
  | nil => simp [toLowerStr, splitWS, splitWSFuel]
  | cons c t =>
      have hcw : c.isWhitespace = true := hws c (List.mem_cons_self c t)
      have hlow : Char.toLower c = c := by
        have hcases : c = ' ' ∨ c = '\t' ∨ c = '\x0d' ∨ c = '\n' := by
          simpa [Char.isWhitespace, Bool.or_eq_true, decide_eq_true_eq,
            or_assoc] using hcw
        rcases hcases with rfl | rfl | rfl | rfl <;> decide
      have hshape : toLowerStr (c :: t) = c :: toLowerStr t := by
        simp [toLowerStr, hlow]
      rw [hshape, splitWS_eq]
      simp only [List.takeWhile_cons, List.dropWhile_cons, hcw, Bool.not_true]
      simp

/-- C10: for an empty or all-whitespace query, tokenization yields the
empty-string term, which substring-matches every text, note and title,
so every fragment scores at least 3 (> 0); with no filters supplied,
`searchHighlights` therefore returns every stored fragment (as a
permutation of the store, reordered by score). -/
theorem whitespace_query_returns_all (store : List Highlight) (query : Str)
    (now : ℚ) (hws : ∀ c ∈ query, c.isWhitespace = true) :
    (∀ hl ∈ store,
      0 < calculateRelevanceScore hl (splitWS (toLowerStr query)) now) ∧
    (searchHighlights store query none now).Perm store := by
  have hnil := nil_mem_splitWS_of_whitespace query hws
  have hpos : ∀ hl ∈ store,
      0 < calculateRelevanceScore hl (splitWS (toLowerStr query)) now := by
    intro hl _
    simp only [calculateRelevanceScore]
    have hmem : termScore hl (toLowerStr hl.text) (toLowerStr hl.note)
        (toLowerStr hl.pageTitle) []
        ∈ (splitWS (toLowerStr query)).map (termScore hl (toLowerStr hl.text)
          (toLowerStr hl.note) (toLowerStr hl.pageTitle)) :=
      List.mem_map_of_mem _ hnil
    have hall : ∀ x ∈ (splitWS (toLowerStr query)).map
        (termScore hl (toLowerStr hl.text) (toLowerStr hl.note)
          (toLowerStr hl.pageTitle)), 0 ≤ x := by
      intro x hx
      obtain ⟨t, _, rfl⟩ := List.mem_map.mp hx
      exact termScore_nonneg hl _ _ _ t
    have hsum := List.single_le_sum hall _ hmem
    have hge := termScore_nil_ge hl (toLowerStr hl.text) (toLowerStr hl.note)
      (toLowerStr hl.pageTitle)
    have hp1 := iteNonnegQ (List.intercalate [' '] (splitWS (toLowerStr query))
      <:+: toLowerStr hl.text) 10 (by norm_num)
    have hp2 := iteNonnegQ (List.intercalate [' '] (splitWS (toLowerStr query))
      <:+: toLowerStr hl.note) 8 (by norm_num)
    have hp3 := iteNonnegQ (List.intercalate [' '] (splitWS (toLowerStr query))
      <:+: toLowerStr hl.pageTitle) 5 (by norm_num)
    have hr1 := iteNonnegQ ((now - hl.createdAt) / 86400000 < 7) 1 (by norm_num)
    have hr2 := iteNonnegQ ((now - hl.createdAt) / 86400000 < 1) 2 (by norm_num)
    have hrc : (0:ℚ) ≤ (hl.referenceCount : ℚ) * 0.5 := by positivity
    linarith
  refine ⟨hpos, ?_⟩
  simp only [searchHighlights]
  have hkeep : (store.map (fun hl =>
      (hl, calculateRelevanceScore hl (splitWS (toLowerStr query)) now))).filter
        (fun p => decide (0 < p.2))
      = store.map (fun hl =>
        (hl, calculateRelevanceScore hl (splitWS (toLowerStr query)) now)) := by
    apply List.filter_eq_self.mpr
    intro p hp
    obtain ⟨hl, hhl, rfl⟩ := List.mem_map.mp hp
    simpa using hpos hl hhl
  rw [hkeep]
  have hperm := (List.mergeSort_perm (store.map (fun hl =>
      (hl, calculateRelevanceScore hl (splitWS (toLowerStr query)) now)))
    (fun a b => decide (b.2 ≤ a.2))).map Prod.fst
  apply hperm.trans
  rw [List.map_map]
  have hid : (Prod.fst ∘ fun hl =>
      (hl, calculateRelevanceScore hl (splitWS (toLowerStr query)) now)) = id := rfl
  rw [hid, List.map_id]

/-- Witness for `whitespace_query_returns_all`: the empty query over a
one-fragment store. -/
theorem whitespace_query_returns_all_witness :
    (∀ c ∈ ([] : Str), c.isWhitespace = true) ∧
    (searchHighlights [sampleHighlight] [] none 0).Perm [sampleHighlight] :=
  ⟨by simp,
   (whitespace_query_returns_all [sampleHighlight] [] 0 (by simp)).2⟩
